import Mathlib

/-!
Verification development for the ai-db-agent repository: a shallow embedding
of the JavaScript core (action validation, the execute route's safety gates,
the AI-response normalizer, the schema-introspection engine, the metadata
cache, and the Gemini/OpenAI orchestration) together with theorems about the
claims of the specification.

JavaScript values are modelled by the inductive type `JVal`; JS objects are
association lists with unique keys (lookup takes the first binding, exactly
as a JS object, which cannot hold duplicates).  JS numbers are modelled as
integers: no claim in scope depends on a fractional value, and the JSON
parser below rejects non-integer literals rather than misrepresent them.
`undefined` is represented by `Option.none` at access sites (a missing key).
-/

/-- Model of a JavaScript/JSON value as it flows through the pipeline. -/
inductive JVal where
  | null : JVal
  | bool : Bool → JVal
  | num : Int → JVal
  | str : String → JVal
  | arr : List JVal → JVal
  | obj : List (String × JVal) → JVal

/-- First-binding association-list lookup: JS property access `o[k]`,
`none` playing the role of `undefined`. -/
def jlookup (k : String) : List (String × JVal) → Option JVal
  | [] => none
  | (k', v) :: rest => if k' = k then some v else jlookup k rest

/-- JS property write `o[k] = v`: overwrite in place when the key exists
(keeping its insertion position, as JS does), append otherwise. -/
def setField (k : String) (v : JVal) (fs : List (String × JVal)) :
    List (String × JVal) :=
  if (jlookup k fs).isSome then
    fs.map (fun kv => if kv.1 = k then (k, v) else kv)
  else fs ++ [(k, v)]

/-- JS truthiness of a value: `null`, `false`, `0` and `""` are falsy,
everything else (including `{}` and `[]`) is truthy. -/
def truthy : JVal → Bool
  | .null => false
  | .bool b => b
  | .num n => n != 0
  | .str s => s ≠ ""
  | .arr _ => true
  | .obj _ => true

/-- Truthiness of a possibly-absent value: `undefined` (absence) is falsy. -/
def optTruthy : Option JVal → Bool
  | none => false
  | some v => truthy v

/-- JS property access `v.k` on an arbitrary value: only plain objects expose
named data properties here (string/array built-ins such as `.length` are
never read by the embedded code). -/
def getField : JVal → String → Option JVal
  | .obj fs, k => jlookup k fs
  | _, _ => none

/-- Two-step property access `v.k1.k2` with `undefined` propagation. -/
def getField2 (v : JVal) (k1 k2 : String) : Option JVal :=
  (getField v k1).bind (fun w => getField w k2)

/-- Length of `Object.keys(v)`: distinct own keys of an object, indices of an
array, characters of a string, nothing for other primitives.  (`null` would
throw in JS, but every call site short-circuits on falsy values first, so the
total `0` is never observed.) -/
def keysLength : JVal → Nat
  | .obj fs => ((fs.map Prod.fst).eraseDups).length
  | .arr xs => xs.length
  | .str s => s.length
  | _ => 0

/-- Substring test on character lists (JS `String.prototype.includes`). -/
def strContainsL (pat : List Char) : List Char → Bool
  | [] => pat.isEmpty
  | c :: rest => pat.isPrefixOf (c :: rest) || strContainsL pat rest

/-- Substring test on strings (JS `haystack.includes(needle)`). -/
def strContains (s pat : String) : Bool :=
  strContainsL pat.data s.data

/-- Rendering of a value inside a JS template literal (only used for the
invalid-action error message). -/
def jvalToDisplay : JVal → String
  | .null => "null"
  | .bool true => "true"
  | .bool false => "false"
  | .num n => toString n
  | .str s => s
  | .arr xs => String.intercalate ","
      (xs.attach.map (fun p =>
        match p with
        | ⟨JVal.null, _⟩ => ""
        | ⟨v, hv⟩ => jvalToDisplay v))
  | .obj _ => "[object Object]"
decreasing_by
  simp only [JVal.arr.sizeOf_spec]
  have := List.sizeOf_lt_of_mem hv
  omega

/-- Rendering of a possibly-absent value in a template literal. -/
def optDisplay : Option JVal → String
  | none => "undefined"
  | some v => jvalToDisplay v

-- ============================================================================
-- lib/debug.js — validateAction
-- ============================================================================

/-- Result record of `validateAction`: `{ valid, errors }`. -/
structure ValidationResult where
  valid : Bool
  errors : List String

/-- The closed enum of permitted actions (`validActions` in lib/debug.js). -/
def validActions : List String :=
  ["find", "insert", "update", "delete", "aggregate"]

/-- Strict equality `action.action === name` against a string literal. -/
def isAction (name : String) (o : Option JVal) : Bool :=
  match o with
  | some (.str s) => s = name
  | _ => false

/-- `validActions.includes(action.action)`: strict-equality membership, so
only a string value can be listed. -/
def isListedAction (o : Option JVal) : Bool :=
  match o with
  | some (.str s) => validActions.contains s
  | _ => false

/-- The condition `!action.query || Object.keys(action.query).length === 0`
(the `||` in the source short-circuits before `Object.keys` can throw on
`null`; the total `keysLength` returns the same Boolean). -/
def emptyFilter (o : Option JVal) : Bool :=
  match o with
  | none => true
  | some v => !(truthy v) || keysLength v == 0

/-- Model of `validateAction` (lib/debug.js): collects all errors in source
order and reports `valid` iff none was produced. -/
def validateAction (fs : List (String × JVal)) : ValidationResult :=
  let aAct := jlookup "action" fs
  let errors :=
    (if !(optTruthy aAct) then ["Missing 'action' field"] else [])
    ++ (if !(optTruthy (jlookup "collection" fs)) then
          ["Missing 'collection' field"] else [])
    ++ (if optTruthy aAct && !(isListedAction aAct) then
          ["Invalid action '" ++ optDisplay aAct ++ "'. Must be: "
            ++ String.intercalate ", " validActions] else [])
    ++ (if isAction "delete" aAct && emptyFilter (jlookup "query" fs) then
          ["Delete without query would delete entire collection - BLOCKED"]
        else [])
    ++ (if isAction "update" aAct && emptyFilter (jlookup "query" fs) then
          ["Update without query would update entire collection - BLOCKED"]
        else [])
    ++ (if isAction "insert" aAct && !(optTruthy (jlookup "insert" fs)) then
          ["Insert action missing 'insert' field (payload)"] else [])
    ++ (if isAction "aggregate" aAct
           && !(match jlookup "pipeline" fs with
                | some (.arr _) => true
                | _ => false) then
          ["Aggregate action must have 'pipeline' array"] else [])
  { valid := errors.isEmpty, errors := errors }

-- ============================================================================
-- app/api/ai/execute/route.js — the executor's own safety gates
-- ============================================================================

/-- JS default `v || dflt` on a possibly-absent value. -/
def jsOr (v : Option JVal) (dflt : JVal) : JVal :=
  match v with
  | some w => if truthy w then w else dflt
  | none => dflt

/-- Outcome of the `delete` branch of the execute route: either a
`deleteMany(filter)` call is issued, or the branch throws before touching the
database. -/
inductive DeleteOutcome where
  | run : JVal → DeleteOutcome
  | refuse : String → DeleteOutcome

/-- Error thrown by the execute route's final delete gate. -/
def deleteBlockedMsg : String :=
  "Delete operation requires a query condition. Cannot delete entire collection."

/-- Model of the `delete` branch of POST in app/api/ai/execute/route.js
(lines 129–143): `const query = action.query || {}` followed by the
independent safety check before `deleteMany`. -/
def executeDelete (actionQuery : Option JVal) : DeleteOutcome :=
  let query := jsOr actionQuery (.obj [])
  if !(truthy query) || keysLength query == 0 then
    .refuse deleteBlockedMsg
  else
    .run query

/-- A sort direction is left alone only when it is strictly `1` or `-1`
(`value !== 1 && value !== -1` selects the entries to fix). -/
def isValidSortVal : JVal → Bool
  | .num n => n == 1 || n == -1
  | _ => false

/-- Replacement applied to each invalid entry: the route assigns
`action.options.sort[field] = 1`. -/
def fixSortValue (v : JVal) : JVal :=
  if isValidSortVal v then v else .num 1

/-- Model of the sort auto-fix block of POST (lines 37–55): the route
collects `invalidSorts` and overwrites exactly those entries with `1`; since
a JS object holds each key once, this equals a pointwise map over the sort
object's entries. -/
def autoFixSort (sort : List (String × JVal)) : List (String × JVal) :=
  sort.map (fun kv => (kv.1, fixSortValue kv.2))

-- ============================================================================
-- lib/ai.js (Ollama variant) — parseJSONResponse: text repair
-- ============================================================================

/-- Characters matched by the JS regex class `\s` (ASCII range; the embedded
strings never contain the exotic Unicode spaces). -/
def jsWs (c : Char) : Bool :=
  c = ' ' || c = '\t' || c = '\n' || c = '\r' || c = '\x0b' || c = '\x0c'

/-- JS `String.prototype.trim` on a character list. -/
def trimChars (cs : List Char) : List Char :=
  ((cs.dropWhile jsWs).reverse.dropWhile jsWs).reverse

/-- The characters `{`, `}`, `'` and `"` used below. -/
def lbrace : Char := Char.ofNat 123

/-- Closing-brace character. -/
def rbrace : Char := Char.ofNat 125

/-- Single-quote character. -/
def squote : Char := Char.ofNat 39

/-- Double-quote character. -/
def dquote : Char := Char.ofNat 34

/-- Drop one leading newline if present (the `\n?` tail of the fence regex). -/
def dropNl : List Char → List Char
  | '\n' :: r => r
  | r => r

/-- Global replacement of the literal pattern followed by an optional newline
with the empty string: `text.replace(/PAT\n?/g, "")` for a literal `PAT`.
The fuel (initialised to the text length) dominates the number of steps,
each of which consumes at least one character. -/
def stripFenceTag (pat : List Char) : Nat → List Char → List Char
  | 0, cs => cs
  | _ + 1, [] => []
  | n + 1, c :: rest =>
      if pat.isPrefixOf (c :: rest) then
        stripFenceTag pat n (dropNl ((c :: rest).drop pat.length))
      else c :: stripFenceTag pat n rest

/-- The match of the greedy regex `/\{[\s\S]*\}/`: from the first opening
brace to the last closing brace, provided the latter follows the former;
otherwise the regex fails and the text is left unchanged. -/
def extractBraces (cs : List Char) : List Char :=
  match cs.findIdx? (fun c => c = lbrace) with
  | none => cs
  | some i =>
    match cs.reverse.findIdx? (fun c => c = rbrace) with
    | none => cs
    | some k =>
      let j := cs.length - 1 - k
      if i < j then (cs.drop i).take (j - i + 1) else cs

/-- Global replacement `text.replace(/,(\s*[}\]])/g, "$1")`: a comma whose
next non-whitespace character closes a brace or bracket is deleted.  (The
regex engine resumes after the retained closer; since no match can begin at
a whitespace or closer character, rescanning them is equivalent.) -/
def stripTrailingCommas : List Char → List Char
  | [] => []
  | c :: rest =>
    if c = ',' then
      match rest.dropWhile jsWs with
      | d :: _ =>
          if d = rbrace || d = ']' then stripTrailingCommas rest
          else c :: stripTrailingCommas rest
      | [] => c :: stripTrailingCommas rest
    else c :: stripTrailingCommas rest

/-- Global replacement `text.replace(/'/g, '"')`. -/
def quoteNormalize (cs : List Char) : List Char :=
  cs.map (fun c => if c = squote then dquote else c)

/-- The syntactic-repair phase of `parseJSONResponse` (lib/ai.js, Ollama
variant): trim, strip code-fence markers when present, extract the first
balanced-looking `{...}` span, delete trailing commas, normalize single
quotes.  The result is what reaches `JSON.parse`. -/
def repairText (s : String) : String :=
  let t0 := trimChars s.data
  let t1 :=
    if strContainsL ("```".data) t0 then
      trimChars (stripFenceTag ("```".data) t0.length
        (stripFenceTag ("```json".data) t0.length t0))
    else t0
  let t2 := extractBraces t1
  let t3 := quoteNormalize (stripTrailingCommas t2)
  String.mk t3

-- ============================================================================
-- JSON.parse model
-- ============================================================================

/-- Whitespace accepted between JSON tokens (RFC 8259). -/
def jsonWs (c : Char) : Bool :=
  c = ' ' || c = '\t' || c = '\n' || c = '\r'

/-- ASCII decimal digit (`\d` and JSON's digit production). -/
def isAsciiDigit (c : Char) : Bool :=
  '0' ≤ c && c ≤ '9'

/-- Hex-digit value, for `\uXXXX` escapes. -/
def hexVal (c : Char) : Option Nat :=
  if '0' ≤ c && c ≤ '9' then some (c.toNat - 48)
  else if 'a' ≤ c && c ≤ 'f' then some (c.toNat - 87)
  else if 'A' ≤ c && c ≤ 'F' then some (c.toNat - 70)
  else none

/-- Backslash character. -/
def bslash : Char := Char.ofNat 92

/-- JSON string body parser (called after the opening quote); returns the
decoded string and the remaining input. -/
def pStringAux : List Char → List Char → Except String (String × List Char)
  | acc, [] => .error "Unterminated string in JSON"
  | acc, c :: rest =>
    if c = dquote then .ok (String.mk acc.reverse, rest)
    else if c = bslash then
      match rest with
      | [] => .error "Bad escape in JSON"
      | e :: rest2 =>
        if e = dquote then pStringAux (dquote :: acc) rest2
        else if e = bslash then pStringAux (bslash :: acc) rest2
        else if e = '/' then pStringAux ('/' :: acc) rest2
        else if e = 'b' then pStringAux ('\x08' :: acc) rest2
        else if e = 'f' then pStringAux ('\x0c' :: acc) rest2
        else if e = 'n' then pStringAux ('\n' :: acc) rest2
        else if e = 'r' then pStringAux ('\r' :: acc) rest2
        else if e = 't' then pStringAux ('\t' :: acc) rest2
        else if e = 'u' then
          match rest2 with
          | a :: b :: c2 :: d :: rest3 =>
            match hexVal a, hexVal b, hexVal c2, hexVal d with
            | some ha, some hb, some hc, some hd =>
                pStringAux (Char.ofNat (((ha * 16 + hb) * 16 + hc) * 16 + hd) :: acc) rest3
            | _, _, _, _ => .error "Bad unicode escape in JSON"
          | _ => .error "Bad unicode escape in JSON"
        else .error "Bad escape in JSON"
    else if c.toNat < 32 then .error "Unescaped control character in JSON string"
    else pStringAux (c :: acc) rest

/-- JSON number parser, restricted to the integer grammar
`-?(0|[1-9][0-9]*)`: a fraction or exponent is reported as unsupported
rather than silently approximated (JS numbers are doubles; every numeric
value the pipeline inspects is an integer). -/
def pNumber (cs : List Char) : Except String (JVal × List Char) :=
  let (neg, cs1) :=
    match cs with
    | c :: r => if c = '-' then (true, r) else (false, cs)
    | [] => (false, cs)
  let digits := cs1.takeWhile isAsciiDigit
  let rest := cs1.dropWhile isAsciiDigit
  if digits.isEmpty then .error "Invalid number in JSON"
  else if digits.length > 1 && digits.head? = some '0' then
    .error "Leading zero in JSON number"
  else
    let value : Nat := digits.foldl (fun a c => a * 10 + (c.toNat - 48)) 0
    let mk : Except String (JVal × List Char) :=
      .ok (.num (if neg then -(Int.ofNat value) else Int.ofNat value), rest)
    match rest with
    | c :: _ =>
        if c = '.' || c = 'e' || c = 'E' then
          .error "Non-integer JSON numbers are outside this model"
        else mk
    | [] => mk

mutual

/-- JSON value parser with explicit fuel (the fuel strictly exceeds the
number of values and members in any input it is called on). -/
def pVal : Nat → List Char → Except String (JVal × List Char)
  | 0, _ => .error "JSON parser fuel exhausted"
  | fuel + 1, cs =>
    match cs.dropWhile jsonWs with
    | [] => .error "Unexpected end of JSON input"
    | c :: rest =>
      if c = dquote then
        match pStringAux [] rest with
        | .error e => .error e
        | .ok (s, rest1) => .ok (.str s, rest1)
      else if c = lbrace then
        match rest.dropWhile jsonWs with
        | d :: r2 => if d = rbrace then .ok (.obj [], r2) else pMembers fuel (rest.dropWhile jsonWs) []
        | [] => .error "Unexpected end of JSON input"
      else if c = '[' then
        match rest.dropWhile jsonWs with
        | d :: r2 => if d = ']' then .ok (.arr [], r2) else pElems fuel (rest.dropWhile jsonWs) []
        | [] => .error "Unexpected end of JSON input"
      else if ("null".data).isPrefixOf (c :: rest) then .ok (.null, (c :: rest).drop 4)
      else if ("true".data).isPrefixOf (c :: rest) then .ok (.bool true, (c :: rest).drop 4)
      else if ("false".data).isPrefixOf (c :: rest) then .ok (.bool false, (c :: rest).drop 5)
      else if c = '-' || isAsciiDigit c then pNumber (c :: rest)
      else .error "Unexpected token in JSON"

/-- JSON object-member list parser (positioned at a key); duplicate keys
overwrite in place, as `JSON.parse` keeps the last value at the first
position. -/
def pMembers : Nat → List Char → List (String × JVal) → Except String (JVal × List Char)
  | 0, _, _ => .error "JSON parser fuel exhausted"
  | fuel + 1, cs, acc =>
    match cs.dropWhile jsonWs with
    | c :: rest =>
      if c = dquote then
        match pStringAux [] rest with
        | .error e => .error e
        | .ok (key, rest1) =>
          match rest1.dropWhile jsonWs with
          | ':' :: rest2 =>
            match pVal fuel rest2 with
            | .error e => .error e
            | .ok (v, rest3) =>
              let acc1 := setField key v acc
              match rest3.dropWhile jsonWs with
              | ',' :: rest4 => pMembers fuel rest4 acc1
              | d :: rest4 =>
                  if d = rbrace then .ok (.obj acc1, rest4)
                  else .error "Expected comma or closing brace in JSON object"
              | [] => .error "Unexpected end of JSON input"
          | _ => .error "Expected colon in JSON object"
      else .error "Expected string key in JSON object"
    | [] => .error "Unexpected end of JSON input"

/-- JSON array-element list parser (positioned at an element). -/
def pElems : Nat → List Char → List JVal → Except String (JVal × List Char)
  | 0, _, _ => .error "JSON parser fuel exhausted"
  | fuel + 1, cs, acc =>
    match pVal fuel cs with
    | .error e => .error e
    | .ok (v, rest) =>
      match rest.dropWhile jsonWs with
      | ',' :: rest2 => pElems fuel rest2 (acc ++ [v])
      | c :: rest2 =>
          if c = ']' then .ok (.arr (acc ++ [v]), rest2)
          else .error "Expected comma or closing bracket in JSON array"
      | [] => .error "Unexpected end of JSON input"

end

/-- Model of `JSON.parse`: parse one value and require only whitespace after
it. -/
def jsonParse (s : String) : Except String JVal :=
  match pVal (s.data.length + 1) s.data with
  | .error e => .error e
  | .ok (v, rest) =>
      if (rest.dropWhile jsonWs).isEmpty then .ok v
      else .error "Unexpected trailing characters after JSON value"

-- ============================================================================
-- lib/ai.js (Ollama variant) — parseJSONResponse: post-parse validation
-- ============================================================================

/-- The catch-all wrapper of `parseJSONResponse`: every error thrown inside
its `try` block (a parse failure, a missing-field throw, or a TypeError from
the default assignments) is rethrown with this prefix. -/
def wrapParseError (msg : String) : String :=
  "Failed to parse AI response as JSON. The AI returned invalid JSON format. Error: " ++ msg

/-- Property creation `target.k = v`.  Only a plain object accepts the write
here; on a primitive the assignment throws a TypeError under strict mode
(ES modules).  A JS array would also accept a named property, but arrays
produced by `JSON.parse` never carry one and nothing downstream reads one,
so the conservative error keeps the model from claiming success the
embedding cannot represent. -/
def setProp (target : JVal) (k : String) (v : JVal) : Except String JVal :=
  match target with
  | .obj fs => .ok (.obj (setField k v fs))
  | _ => .error ("Cannot create property '" ++ k ++ "' on non-object value")

/-- JS `typeof v === "object"` (true for objects, arrays and `null`). -/
def typeofIsObject : JVal → Bool
  | .obj _ => true
  | .arr _ => true
  | .null => true
  | _ => false

/-- The MongoDB default-backfill block of `parseJSONResponse`:
`json.options = json.options || {}`, `json.options.limit =
json.options.limit || previewLimit`, `json.query = json.query || {}`, and
the projection-type repair, written as explicit state passing (mutating the
shared `options` object and storing it back). -/
def normalizeMongo (json : JVal) (previewLimit : Int) : Except String JVal :=
  let opts0 := jsOr (getField json "options") (.obj [])
  match setProp json "options" opts0 with
  | .error e => .error e
  | .ok json1 =>
    match setProp opts0 "limit" (jsOr (getField opts0 "limit") (.num previewLimit)) with
    | .error e => .error e
    | .ok opts1 =>
      match setProp json1 "options" opts1 with
      | .error e => .error e
      | .ok json2 =>
        match setProp json2 "query" (jsOr (getField json2 "query") (.obj [])) with
        | .error e => .error e
        | .ok json3 =>
          match getField2 json3 "options" "projection" with
          | some p =>
            if truthy p && !(typeofIsObject p) then
              match getField json3 "options" with
              | some o =>
                match setProp o "projection" (.obj []) with
                | .error e => .error e
                | .ok o1 =>
                  match setProp json3 "options" o1 with
                  | .error e => .error e
                  | .ok json4 => .ok json4
              | none => .ok json3
            else .ok json3
          | none => .ok json3

/-- The post-parse phase of `parseJSONResponse` (lib/ai.js, Ollama variant,
lines 353–391): require a truthy `action`, require a truthy collection field
(`collection` for MongoDB, else `table`, with the fallback reads of the
source), then backfill the defaults; every thrown error is rewrapped by the
surrounding catch. -/
def normalizeParsed (json : JVal) (previewLimit : Int) (dbType : String) :
    Except String JVal :=
  if !(optTruthy (getField json "action")) then
    .error (wrapParseError "Missing 'action' field in response")
  else
    let collectionField := if dbType = "mongodb" then "collection" else "table"
    if !(optTruthy (getField json collectionField))
       && !(optTruthy (getField json "collection"))
       && !(optTruthy (getField json "table")) then
      .error (wrapParseError ("Missing '" ++ collectionField ++ "' field in response"))
    else if dbType = "mongodb" then
      match normalizeMongo json previewLimit with
      | .ok j => .ok j
      | .error e => .error (wrapParseError e)
    else
      match setProp json "limit" (jsOr (getField json "limit") (.num previewLimit)) with
      | .ok j => .ok j
      | .error e => .error (wrapParseError e)

/-- Model of `parseJSONResponse(rawText, previewLimit, dbType)` (lib/ai.js,
Ollama variant): repair the raw text, `JSON.parse` it, then validate and
backfill; a parse failure is rethrown through the same catch wrapper. -/
def parseJSONResponse (rawText : String) (previewLimit : Int) (dbType : String) :
    Except String JVal :=
  match jsonParse (repairText rawText) with
  | .ok j => normalizeParsed j previewLimit dbType
  | .error e => .error (wrapParseError e)

-- ============================================================================
-- lib/dbIntrospect.js — metadata cache
-- ============================================================================

/-- The module-level `dbMetadataCache` record: `{ data, timestamp, ttl }`,
with `null` fields modelled as `none`.  The snapshot type is a parameter:
`scanDatabase` performs the I/O this embedding abstracts over. -/
structure DBMetadataCache (α : Type) where
  data : Option α
  timestamp : Option Int
  ttl : Int

/-- The initial cache value: `{ data: null, timestamp: null, ttl: 5*60*1000 }`. -/
def initialCache (α : Type) : DBMetadataCache α :=
  { data := none, timestamp := none, ttl := 5 * 60 * 1000 }

/-- JS truthiness of the `timestamp` field (a number: `0` is falsy). -/
def tsTruthy : Option Int → Bool
  | none => false
  | some t => t != 0

/-- Observable outcome of one `getCachedDBMetadata` call: the returned
metadata, the cache state afterwards, and whether `scanDatabase` ran. -/
structure CacheCallResult (α : Type) where
  result : α
  st : DBMetadataCache α
  didScan : Bool

/-- Model of `getCachedDBMetadata(uri, forceRefresh)` (lib/dbIntrospect.js,
lines 315–338): serve the cached data when refresh is not forced, the entry
is truthy and the TTL has not elapsed; otherwise run `scanDatabase(uri)`
(abstracted as the pure `scan` argument) and overwrite the single cache
entry.  Note the cache record carries no connection key. -/
def getCachedDBMetadata {α : Type} (scan : String → α) (now : Int)
    (uri : String) (forceRefresh : Bool) (cache : DBMetadataCache α) :
    CacheCallResult α :=
  match cache.data, cache.timestamp with
  | some d, some t =>
      if !forceRefresh && (t != 0) && decide (now - t < cache.ttl) then
        { result := d, st := cache, didScan := false }
      else
        let m := scan uri
        { result := m
          st := { data := some m, timestamp := some now, ttl := cache.ttl }
          didScan := true }
  | _, _ =>
      let m := scan uri
      { result := m
        st := { data := some m, timestamp := some now, ttl := cache.ttl }
        didScan := true }

-- ============================================================================
-- lib/ai.js (Gemini + OpenAI variant) — orchestration with retry/fallback
-- ============================================================================

/-- One provider round trip, abstracted: the `generateContent` /
`chat.completions.create` call either yields a completion (already run
through that variant's `parseJSONResponse`, which this model leaves opaque)
or throws with a message. -/
inductive ProviderReply where
  | success : String → ProviderReply
  | failure : String → ProviderReply

/-- The rate-limit test of `parseWithGemini`:
`err.message.includes("429") || err.message.includes("quota")`. -/
def isRateLimitMsg (m : String) : Bool :=
  strContains m "429" || strContains m "quota"

/-- Observable outcome of `parseWithGemini`: the result or thrown message,
how many attempts ran, and the backoff waits performed (ms). -/
structure GeminiRun where
  outcome : Except String String
  attempts : Nat
  waits : List Nat

/-- The retry loop of `parseWithGemini` (lib/ai.js, Gemini variant, lines
278–311): `respond n` is the outcome of attempt `n`; a rate-limit failure
waits `attempt * 2000` ms and retries, any other failure is rethrown at
once, and exhausting `remaining` attempts throws the aggregate message. -/
def geminiLoop (respond : Nat → ProviderReply) :
    Nat → Nat → String → List Nat → GeminiRun
  | attempt, 0, lastErr, waits =>
      { outcome := .error ("Gemini failed after retries: " ++ lastErr)
        attempts := attempt - 1, waits := waits }
  | attempt, remaining + 1, lastErr, waits =>
      match respond attempt with
      | .success t => { outcome := .ok t, attempts := attempt, waits := waits }
      | .failure m =>
          if isRateLimitMsg m then
            geminiLoop respond (attempt + 1) remaining m (waits ++ [attempt * 2000])
          else { outcome := .error m, attempts := attempt, waits := waits }

/-- Model of `parseWithGemini`: three attempts starting at attempt 1 (the
API-key guard and prompt construction are outside the retry behaviour). -/
def parseWithGemini (respond : Nat → ProviderReply) : GeminiRun :=
  geminiLoop respond 1 3 "" []

/-- Observable outcome of the orchestrator `parseUserInstruction`: final
result, Gemini attempt count and waits, and whether OpenAI was invoked. -/
structure OrchestratorRun where
  outcome : Except String String
  geminiAttempts : Nat
  geminiWaits : List Nat
  openaiCalled : Bool

/-- Model of `parseUserInstruction` (lib/ai.js, Gemini variant, lines
222–256): try Gemini with its retry loop; only if it throws, fall through to
OpenAI; if both fail, throw the aggregate error naming both reasons. -/
def parseUserInstruction (gemini : Nat → ProviderReply)
    (openai : ProviderReply) : OrchestratorRun :=
  let g := parseWithGemini gemini
  match g.outcome with
  | .ok t =>
      { outcome := .ok t, geminiAttempts := g.attempts
        geminiWaits := g.waits, openaiCalled := false }
  | .error ge =>
      match openai with
      | .success t =>
          { outcome := .ok t, geminiAttempts := g.attempts
            geminiWaits := g.waits, openaiCalled := true }
      | .failure oe =>
          { outcome := .error ("❌ Both Gemini & OpenAI failed → Gemini: ("
              ++ ge ++ ") | OpenAI: (" ++ oe ++ ")")
            geminiAttempts := g.attempts
            geminiWaits := g.waits, openaiCalled := true }

-- ============================================================================
-- lib/dbIntrospect.js — inferSchema
-- ============================================================================

/-- Lowercase-hex digit (`[a-f0-9]`). -/
def isHexLower (c : Char) : Bool :=
  ('a' ≤ c && c ≤ 'f') || isAsciiDigit c

/-- The date-like prefix test `/^\d{4}-\d{2}-\d{2}/`. -/
def matchesDatePrefix (s : String) : Bool :=
  match s.data with
  | y1 :: y2 :: y3 :: y4 :: s1 :: m1 :: m2 :: s2 :: d1 :: d2 :: _ =>
      isAsciiDigit y1 && isAsciiDigit y2 && isAsciiDigit y3 && isAsciiDigit y4
      && s1 = '-' && isAsciiDigit m1 && isAsciiDigit m2
      && s2 = '-' && isAsciiDigit d1 && isAsciiDigit d2
  | _ => false

/-- The object-id test `/^[a-f0-9]{24}$/`. -/
def matchesHex24 (s : String) : Bool :=
  s.data.length == 24 && s.data.all isHexLower

/-- Model of `getFieldType` (lib/dbIntrospect.js): type tag of one sampled
value.  Driver-specific classes (`Date`, `ObjectId`) lie outside the value
embedding, and with integer-modelled numbers the `double` tag is
unreachable; the string sub-classification is exact. -/
def getFieldType : JVal → String
  | .null => "null"
  | .arr _ => "array"
  | .obj _ => "object"
  | .num _ => "integer"
  | .bool _ => "boolean"
  | .str s =>
      if matchesDatePrefix s then "date-string"
      else if matchesHex24 s then "objectid-string"
      else if strContains s "@" then "email"
      else "string"

/-- Model of `formatSampleValue` (lib/dbIntrospect.js): summarize a sample
for display (`[n items]`, `{k keys}`, long-string truncation). -/
def formatSampleValue (value : JVal) (ty : String) : JVal :=
  if ty = "array" then
    match value with
    | .arr xs => .str ("[" ++ toString xs.length ++ " items]")
    | _ => .str "[]"
  else if ty = "object" then
    .str ("\x7b" ++ toString (keysLength value) ++ " keys\x7d")
  else
    match value with
    | .str s => if s.length > 50 then .str ((s.take 47) ++ "...") else .str s
    | v => v

/-- The accumulator threaded through the document loop of `inferSchema`:
`fieldSet` (an insertion-ordered set), `fieldTypes` (field → ordered set of
tags) and `sampleValues`. -/
structure SchemaAccum where
  fieldSet : List String
  fieldTypes : List (String × List String)
  sampleValues : List (String × JVal)

/-- Insertion-ordered set insert (JS `Set.prototype.add`). -/
def insertUnique (k : String) (l : List String) : List String :=
  if k ∈ l then l else l ++ [k]

/-- Ordered-set association lookup for the type map. -/
def tlookup (k : String) : List (String × List String) → Option (List String)
  | [] => none
  | (k', v) :: rest => if k' = k then some v else tlookup k rest

/-- `fieldTypes[key]` initialisation and `fieldTypes[key].add(type)`. -/
def addType (k : String) (ty : String) (fts : List (String × List String)) :
    List (String × List String) :=
  match tlookup k fts with
  | none => fts ++ [(k, [ty])]
  | some tys =>
      fts.map (fun kv => if kv.1 = k then (k, if ty ∈ tys then tys else tys ++ [ty]) else kv)

/-- One iteration of the `Object.entries(doc).forEach` body of `inferSchema`:
record the key, record the value's type tag, and store the first sample for
which the slot is still falsy and the value is not `null` (`undefined`
cannot occur as a parsed document value). -/
def scanEntry (st : SchemaAccum) (kv : String × JVal) : SchemaAccum :=
  let key := kv.1
  let value := kv.2
  let ty := getFieldType value
  let st1 : SchemaAccum :=
    { fieldSet := insertUnique key st.fieldSet
      fieldTypes := addType key ty st.fieldTypes
      sampleValues := st.sampleValues }
  let slotFalsy :=
    match jlookup key st.sampleValues with
    | none => true
    | some v => !(truthy v)
  let isNullV := match value with | .null => true | _ => false
  if slotFalsy && !isNullV then
    { st1 with sampleValues := setField key (formatSampleValue value ty) st1.sampleValues }
  else st1

/-- One iteration of the outer `documents.forEach` of `inferSchema`. -/
def scanDoc (st : SchemaAccum) (doc : List (String × JVal)) : SchemaAccum :=
  doc.foldl scanEntry st

/-- The `CollectionSchema` fragment `inferSchema` returns. -/
structure CollectionSchema where
  fields : List String
  fieldTypes : List (String × List String)
  sampleValues : List (String × JVal)

/-- Model of `inferSchema(documents)` (lib/dbIntrospect.js, lines 90–136):
empty input yields the empty schema; otherwise fold the documents and
convert the accumulated sets to lists, rebuilding `fieldTypes` keyed by the
final field list exactly as the source's closing loop does. -/
def inferSchema (documents : List (List (String × JVal))) : CollectionSchema :=
  if documents.isEmpty then
    { fields := [], fieldTypes := [], sampleValues := [] }
  else
    let acc := documents.foldl scanDoc ⟨[], [], []⟩
    { fields := acc.fieldSet
      fieldTypes := acc.fieldSet.map (fun f => (f, (tlookup f acc.fieldTypes).getD []))
      sampleValues := acc.sampleValues }

-- ============================================================================
-- Concrete raw-model outputs used by the normalizer claims
-- ============================================================================

/-- A fenced model reply with a trailing comma, byte for byte the scenario
input of the specification. -/
def fencedRaw : String :=
  "```json\n\x7b\"action\":\"find\",\"collection\":\"users\",\"query\":\x7b\x7d,\x7d\n```"

/-- The clean, unfenced JSON the scenario compares against. -/
def cleanRaw : String :=
  "\x7b\"action\":\"find\",\"collection\":\"users\",\"query\":\x7b\x7d\x7d"

/-- A model reply that explicitly asks for `options.limit = 0`. -/
def zeroLimitRaw : String :=
  "\x7b\"action\":\"find\",\"collection\":\"users\",\"options\":\x7b\"limit\":0\x7d\x7d"

-- ============================================================================
-- Helper lemmas
-- ============================================================================

/-- Deduplication of an empty key list. -/
theorem eraseDups_nil : ([] : List String).eraseDups = [] := rfl

/-- A sort value accepted by the strict test is literally `1` or `-1`. -/
theorem isValidSortVal_eq (v : JVal) (h : isValidSortVal v = true) :
    v = JVal.num 1 ∨ v = JVal.num (-1) := by
  cases v <;> simp [isValidSortVal] at h
  rcases h with h | h <;> simp [h]

-- ============================================================================
-- Claims
-- ============================================================================

/-- Claim C1: for every action object whose `action` field is `"delete"` or
`"update"` and whose `query` is absent or the empty object, `validateAction`
reports `valid = false` and its error list contains a message mentioning
`BLOCKED`, whatever the other fields are. -/
theorem validateAction_blocks_empty_filter_mutation (fs : List (String × JVal))
    (hact : jlookup "action" fs = some (JVal.str "delete")
          ∨ jlookup "action" fs = some (JVal.str "update"))
    (hq : jlookup "query" fs = none ∨ jlookup "query" fs = some (JVal.obj [])) :
    (validateAction fs).valid = false
    ∧ ∃ e ∈ (validateAction fs).errors, strContains e "BLOCKED" = true := by
  have hef : emptyFilter (jlookup "query" fs) = true := by
    rcases hq with h | h <;> simp [emptyFilter, h, truthy, keysLength, eraseDups_nil]
  have hv : (validateAction fs).valid = (validateAction fs).errors.isEmpty := rfl
  rcases hact with h | h
  · have hmem : "Delete without query would delete entire collection - BLOCKED"
        ∈ (validateAction fs).errors := by
      simp [validateAction, h, hef, isAction]
    refine ⟨?_, ⟨_, hmem, by decide⟩⟩
    rw [hv]
    rcases he : (validateAction fs).errors with _ | ⟨a, l⟩
    · rw [he] at hmem; simp at hmem
    · simp
  · have hmem : "Update without query would update entire collection - BLOCKED"
        ∈ (validateAction fs).errors := by
      simp [validateAction, h, hef, isAction]
    refine ⟨?_, ⟨_, hmem, by decide⟩⟩
    rw [hv]
    rcases he : (validateAction fs).errors with _ | ⟨a, l⟩
    · rw [he] at hmem; simp at hmem
    · simp

/-- Witness for C1 at the concrete action `{ action: "delete" }`. -/
theorem validateAction_blocks_empty_filter_mutation_witness :
    (validateAction [("action", JVal.str "delete")]).valid = false
    ∧ ∃ e ∈ (validateAction [("action", JVal.str "delete")]).errors,
        strContains e "BLOCKED" = true :=
  validateAction_blocks_empty_filter_mutation [("action", JVal.str "delete")]
    (Or.inl rfl) (Or.inl rfl)

/-- Claim C2: the execute route's delete branch refuses (throws) on an
absent or empty `query` before any `deleteMany` call, and no execution of
the branch ever issues `deleteMany` with an empty filter — a gate that does
not rely on `validateAction` at all. -/
theorem executeDelete_refuses_empty_query (q : Option JVal) :
    ((q = none ∨ q = some (JVal.obj [])) →
        executeDelete q = DeleteOutcome.refuse deleteBlockedMsg)
    ∧ (∀ f, executeDelete q = DeleteOutcome.run f → keysLength f ≠ 0) := by
  constructor
  · rintro (rfl | rfl) <;> simp [executeDelete, jsOr, truthy, keysLength, eraseDups_nil]
  · intro f hf
    unfold executeDelete at hf
    by_cases hc : (!(truthy (jsOr q (.obj []))) || keysLength (jsOr q (.obj [])) == 0) = true
    · rw [if_pos hc] at hf; cases hf
    · rw [if_neg hc] at hf
      cases hf
      simp at hc
      exact hc.2

/-- Witness for C2 at the concrete input of an absent query. -/
theorem executeDelete_refuses_empty_query_witness :
    executeDelete none = DeleteOutcome.refuse deleteBlockedMsg :=
  (executeDelete_refuses_empty_query none).1 (Or.inl rfl)

/-- Claim C3: after the execute route's auto-fix, every sort value is
exactly `1` or `-1`; positionally, an entry whose value is not strictly `1`
or `-1` is replaced by `1` (its key kept), and an entry whose value already
is `1` or `-1` is left entirely unchanged — so the field set is unchanged
too. -/
theorem autoFixSort_only_unit_directions (sort : List (String × JVal)) :
    (∀ kv ∈ autoFixSort sort, kv.2 = JVal.num 1 ∨ kv.2 = JVal.num (-1))
    ∧ ((autoFixSort sort).map Prod.fst = sort.map Prod.fst)
    ∧ (∀ (i : Nat) (kv : String × JVal), sort[i]? = some kv →
        isValidSortVal kv.2 = false →
        (autoFixSort sort)[i]? = some (kv.1, JVal.num 1))
    ∧ (∀ (i : Nat) (kv : String × JVal), sort[i]? = some kv →
        isValidSortVal kv.2 = true →
        (autoFixSort sort)[i]? = some kv) := by
  refine ⟨?_, ?_, ?_, ?_⟩
  · intro kv hkv
    rw [autoFixSort, List.mem_map] at hkv
    obtain ⟨x, hx, rfl⟩ := hkv
    by_cases hvld : isValidSortVal x.2 = true
    · simpa [fixSortValue, hvld] using isValidSortVal_eq x.2 hvld
    · simp [fixSortValue, hvld]
  · induction sort with
    | nil => rfl
    | cons a l ih => simp [autoFixSort]
  · intro i kv h hinv
    rw [autoFixSort, List.getElem?_map, h]
    simp [fixSortValue, hinv]
  · intro i kv h hvld
    rw [autoFixSort, List.getElem?_map, h]
    simp [fixSortValue, hvld]

/-- Witness for C3: a concrete sort map with one invalid and one valid
entry; the invalid `5` is replaced by `1` at its position and the valid
`-1` entry survives the fix untouched. -/
theorem autoFixSort_only_unit_directions_witness :
    (autoFixSort [("a", JVal.num 5), ("b", JVal.num (-1))])[0]?
        = some ("a", JVal.num 1)
    ∧ (autoFixSort [("a", JVal.num 5), ("b", JVal.num (-1))])[1]?
        = some ("b", JVal.num (-1)) :=
  ⟨(autoFixSort_only_unit_directions [("a", JVal.num 5), ("b", JVal.num (-1))]).2.2.1
      0 ("a", JVal.num 5) rfl (by decide),
   (autoFixSort_only_unit_directions [("a", JVal.num 5), ("b", JVal.num (-1))]).2.2.2
      1 ("b", JVal.num (-1)) rfl (by decide)⟩

/-- Claim C4: the fenced model reply with a trailing comma — the fence
markers stripped, the `{...}` span extracted, the trailing comma removed,
single quotes normalized — parses to exactly the action the clean unfenced
JSON yields, namely the object with the preview-limit default backfilled. -/
theorem parseJSONResponse_fenced_trailing_comma (pl : Int) :
    parseJSONResponse fencedRaw pl "mongodb" = parseJSONResponse cleanRaw pl "mongodb"
    ∧ parseJSONResponse cleanRaw pl "mongodb" =
        .ok (JVal.obj [("action", JVal.str "find"), ("collection", JVal.str "users"),
          ("query", JVal.obj []), ("options", JVal.obj [("limit", JVal.num pl)])]) := by
  constructor
  · have h : repairText fencedRaw = cleanRaw := by decide
    have h2 : repairText cleanRaw = cleanRaw := by decide
    rw [parseJSONResponse, parseJSONResponse, h, h2]
  · rfl

theorem jlookup_setField_self (k : String) (v : JVal) (fs : List (String × JVal)) :
    jlookup k (setField k v fs) = some v := by
  rw [setField]
  by_cases hs : (jlookup k fs).isSome
  · rw [if_pos hs]
    induction fs with
    | nil => simp [jlookup] at hs
    | cons kv rest ih =>
      obtain ⟨k2, w⟩ := kv
      simp only [List.map_cons]
      by_cases hk : k2 = k
      · rw [show (if (k2, w).1 = k then (k, v) else (k2, w)) = (k, v) from if_pos hk]
        simp [jlookup]
      · rw [show (if (k2, w).1 = k then (k, v) else (k2, w)) = (k2, w) from if_neg hk]
        simp only [jlookup, if_neg hk] at hs ⊢
        exact ih hs
  · rw [if_neg hs]
    induction fs with
    | nil => simp [jlookup]
    | cons kv rest ih =>
      obtain ⟨k2, w⟩ := kv
      by_cases hk : k2 = k
      · rw [jlookup, if_pos hk] at hs; simp at hs
      · rw [jlookup, if_neg hk] at hs
        simp only [List.cons_append, jlookup, if_neg hk]
        exact ih hs

theorem jlookup_setField_ne (k k' : String) (v : JVal) (fs : List (String × JVal))
    (h : k ≠ k') : jlookup k' (setField k v fs) = jlookup k' fs := by
  rw [setField]
  by_cases hs : (jlookup k fs).isSome
  · rw [if_pos hs]
    clear hs
    induction fs with
    | nil => simp
    | cons kv rest ih =>
      obtain ⟨k2, w⟩ := kv
      simp only [List.map_cons]
      by_cases hk : k2 = k
      · rw [show (if (k2, w).1 = k then (k, v) else (k2, w)) = (k, v) from if_pos hk]
        simp only [jlookup]
        rw [if_neg h, if_neg (show ¬ k2 = k' from hk ▸ h)]
        exact ih
      · rw [show (if (k2, w).1 = k then (k, v) else (k2, w)) = (k2, w) from if_neg hk]
        simp only [jlookup]
        by_cases hk' : k2 = k'
        · rw [if_pos hk', if_pos hk']
        · rw [if_neg hk', if_neg hk']
          exact ih
  · rw [if_neg hs]
    clear hs
    induction fs with
    | nil => simp [jlookup, h]
    | cons kv rest ih =>
      obtain ⟨k2, w⟩ := kv
      simp only [List.cons_append, jlookup]
      by_cases hk' : k2 = k'
      · rw [if_pos hk', if_pos hk']
      · rw [if_neg hk', if_neg hk']
        exact ih

theorem setProp_obj (fs : List (String × JVal)) (k : String) (v : JVal) :
    setProp (.obj fs) k v = .ok (.obj (setField k v fs)) := rfl

theorem mem_setField (k : String) (v : JVal) (fs : List (String × JVal)) :
    ∀ e ∈ setField k v fs, e.1 = k ∨ e ∈ fs := by
  intro e he
  rw [setField] at he
  by_cases hs : (jlookup k fs).isSome
  · rw [if_pos hs] at he
    rw [List.mem_map] at he
    obtain ⟨x, hx, rfl⟩ := he
    by_cases hk : x.1 = k
    · left; simp [hk]
    · right; simpa [hk] using hx
  · rw [if_neg hs] at he
    rcases List.mem_append.mp he with h1 | h1
    · right; exact h1
    · left; simp at h1; simp [h1]

theorem jlookup_ne_options_query : ∀ (v : JVal) (fs : List (String × JVal)),
    jlookup "options" (setField "query" v fs) = jlookup "options" fs :=
  fun v fs => jlookup_setField_ne _ _ _ _ (by decide)

theorem jlookup_ne_query_options : ∀ (v : JVal) (fs : List (String × JVal)),
    jlookup "query" (setField "options" v fs) = jlookup "query" fs :=
  fun v fs => jlookup_setField_ne _ _ _ _ (by decide)

theorem jlookup_ne_limit_projection : ∀ (v : JVal) (fs : List (String × JVal)),
    jlookup "limit" (setField "projection" v fs) = jlookup "limit" fs :=
  fun v fs => jlookup_setField_ne _ _ _ _ (by decide)

theorem normalizeMongo_ok_shape (fs : List (String × JVal)) (pl : Int) (a : JVal)
    (h : normalizeMongo (.obj fs) pl = .ok a) :
    getField a "query" = some (jsOr (jlookup "query" fs) (.obj []))
    ∧ getField2 a "options" "limit"
        = some (jsOr (getField (jsOr (jlookup "options" fs) (.obj [])) "limit") (.num pl)) := by
  unfold normalizeMongo at h
  simp only [getField] at h
  rcases hO : jsOr (jlookup "options" fs) (JVal.obj []) with _ | b | n | s | xs | os
  all_goals rw [hO] at h
  · simp [setProp, setField] at h
  · simp [setProp, setField] at h
  · simp [setProp, setField] at h
  · simp [setProp, setField] at h
  · simp [setProp, setField] at h
  · -- object case
    simp only [setProp_obj, getField] at h
    set Lv := jsOr (jlookup "limit" os) (JVal.num pl) with hLv
    set opts1 := JVal.obj (setField "limit" Lv os) with hopts1
    set fs2 := setField "options" opts1 (setField "options" (JVal.obj os) fs) with hfs2
    set Qv := jsOr (jlookup "query" fs2) (JVal.obj []) with hQv
    set fs3 := setField "query" Qv fs2 with hfs3
    have hjo : jlookup "options" fs3 = some opts1 := by
      rw [hfs3, jlookup_ne_options_query, hfs2, jlookup_setField_self]
    have hQ : jlookup "query" fs2 = jlookup "query" fs := by
      rw [hfs2, jlookup_ne_query_options, jlookup_ne_query_options]
    have hg2 : getField2 (JVal.obj fs3) "options" "projection"
        = jlookup "projection" (setField "limit" Lv os) := by
      simp only [getField2, getField, hjo, Option.bind, hopts1]
    have hlim : getField opts1 "limit" = some Lv := by
      rw [hopts1]
      exact jlookup_setField_self _ _ _
    have hqv : jlookup "query" fs3 = some Qv := by
      rw [hfs3]; exact jlookup_setField_self _ _ _
    rw [hg2] at h
    have goal3 : getField (JVal.obj fs3) "query" = some (jsOr (jlookup "query" fs) (JVal.obj []))
        ∧ getField2 (JVal.obj fs3) "options" "limit"
            = some (jsOr (getField (JVal.obj os) "limit") (JVal.num pl)) := by
      constructor
      · rw [getField, hqv, hQv, hQ]
      · simp only [getField2, getField, hjo, Option.bind, hlim, hLv]
        exact jlookup_setField_self _ _ _
    rcases hp : jlookup "projection" (setField "limit" Lv os) with _ | p
    · rw [hp] at h
      simp only [Except.ok.injEq] at h
      exact h ▸ goal3
    · rw [hp] at h
      by_cases hcond : (truthy p && !typeofIsObject p) = true
      · simp only [hcond, if_true, hjo, hopts1, setProp_obj, Except.ok.injEq] at h
        subst h
        constructor
        · rw [getField, jlookup_ne_query_options, hqv, hQv, hQ]
        · simp only [getField2, getField, jlookup_setField_self, Option.bind,
            jlookup_ne_limit_projection]
      · simp [hcond] at h
        subst h
        exact goal3

theorem normalizeMongo_error_msg (fs : List (String × JVal)) (pl : Int) (e : String)
    (h : normalizeMongo (.obj fs) pl = .error e) :
    e = "Cannot create property 'limit' on non-object value" := by
  unfold normalizeMongo at h
  simp only [getField] at h
  rcases hO : jsOr (jlookup "options" fs) (JVal.obj []) with _ | b | n | s | xs | os
  all_goals rw [hO] at h
  · simp [setProp, setField] at h; exact h.symm
  · simp [setProp, setField] at h; exact h.symm
  · simp [setProp, setField] at h; exact h.symm
  · simp [setProp, setField] at h; exact h.symm
  · simp [setProp, setField] at h; exact h.symm
  · simp only [setProp_obj, getField] at h
    set Lv := jsOr (jlookup "limit" os) (JVal.num pl) with hLv
    set opts1 := JVal.obj (setField "limit" Lv os) with hopts1
    set fs2 := setField "options" opts1 (setField "options" (JVal.obj os) fs) with hfs2
    set Qv := jsOr (jlookup "query" fs2) (JVal.obj []) with hQv
    set fs3 := setField "query" Qv fs2 with hfs3
    have hjo : jlookup "options" fs3 = some opts1 := by
      rw [hfs3, jlookup_ne_options_query, hfs2, jlookup_setField_self]
    have hg2 : getField2 (JVal.obj fs3) "options" "projection"
        = jlookup "projection" (setField "limit" Lv os) := by
      simp only [getField2, getField, hjo, Option.bind, hopts1]
    rw [hg2] at h
    rcases hp : jlookup "projection" (setField "limit" Lv os) with _ | p
    · rw [hp] at h; simp at h
    · rw [hp] at h
      by_cases hcond : (truthy p && !typeofIsObject p) = true
      · simp only [hcond, if_true, hjo, hopts1, setProp_obj] at h
        simp at h
      · simp [hcond] at h

/-- Unfolding of `normalizeParsed` at `dbType = "mongodb"`: the two guards,
then the backfill block behind the catch wrapper. -/
theorem normalizeParsed_mongo_eq (fs : List (String × JVal)) (pl : Int) :
    normalizeParsed (.obj fs) pl "mongodb" =
      if !(optTruthy (jlookup "action" fs)) then
        .error (wrapParseError "Missing 'action' field in response")
      else if !(optTruthy (jlookup "collection" fs))
              && !(optTruthy (jlookup "collection" fs))
              && !(optTruthy (jlookup "table" fs)) then
        .error (wrapParseError "Missing 'collection' field in response")
      else
        match normalizeMongo (.obj fs) pl with
        | .ok j => .ok j
        | .error e => .error (wrapParseError e) := by
  simp [normalizeParsed, getField]

/-- When the parsed object has no `options.limit`, neither does the options
object selected by the `json.options` defaulting default. -/
theorem getField2_none_opts (fs : List (String × JVal))
    (hn : getField2 (JVal.obj fs) "options" "limit" = none) :
    getField (jsOr (jlookup "options" fs) (JVal.obj [])) "limit" = none := by
  simp only [getField2, getField] at hn
  rcases ho : jlookup "options" fs with _ | v
  · simp [jsOr, getField, jlookup]
  · rw [ho] at hn
    simp only [Option.bind] at hn
    rw [jsOr]
    by_cases ht : truthy v = true
    · rw [if_pos ht]; exact hn
    · rw [if_neg ht]; simp [getField, jlookup]

/-- When the parsed object does carry an `options.limit`, the defaulted
options object still carries that same value (a carried value forces
`options` to be a truthy object). -/
theorem getField2_falsy_opts (fs : List (String × JVal)) (w : JVal)
    (hw : getField2 (JVal.obj fs) "options" "limit" = some w) :
    getField (jsOr (jlookup "options" fs) (JVal.obj [])) "limit" = some w := by
  simp only [getField2, getField] at hw
  rcases ho : jlookup "options" fs with _ | v
  · rw [ho] at hw; simp at hw
  · rw [ho] at hw
    simp only [Option.bind] at hw
    rcases v with _ | b | n | s | xs | os
    all_goals simp [getField] at hw
    rw [jsOr]
    simp only [truthy, if_pos]
    simpa [getField] using hw

/-- The defaulted limit `old || previewLimit` is never the number `0` when
the preview limit is not `0`: a falsy old value is replaced, and a truthy
old value cannot be `0`. -/
theorem jsOr_limit_ne_zero (o : Option JVal) (pl : Int) (hpl : pl ≠ 0) :
    jsOr o (JVal.num pl) ≠ JVal.num 0 := by
  rcases o with _ | w
  · simp [jsOr, hpl]
  · rw [jsOr]
    by_cases ht : truthy w = true
    · rw [if_pos ht]
      intro hw
      rw [hw] at ht
      simp [truthy] at ht
    · rw [if_neg ht]
      simp [hpl]

/-- A successful `normalizeParsed` at `dbType = "mongodb"` is exactly a
successful run of the backfill block. -/
theorem normalizeParsed_ok_mongo (fs : List (String × JVal)) (pl : Int) (a : JVal)
    (h : normalizeParsed (.obj fs) pl "mongodb" = .ok a) :
    normalizeMongo (.obj fs) pl = .ok a := by
  rw [normalizeParsed_mongo_eq] at h
  by_cases ha : (!(optTruthy (jlookup "action" fs))) = true
  · rw [if_pos ha] at h; cases h
  · rw [if_neg ha] at h
    by_cases hc : (!(optTruthy (jlookup "collection" fs))
        && !(optTruthy (jlookup "collection" fs))
        && !(optTruthy (jlookup "table" fs))) = true
    · rw [if_pos hc] at h; cases h
    · rw [if_neg hc] at h
      rcases hm : normalizeMongo (.obj fs) pl with e | j
      · rw [hm] at h; cases h
      · rw [hm] at h
        cases h
        rfl

/-- Claim C5: for raw text that parses to a JSON object, the normalized
action has `options.limit = previewLimit` whenever the parsed object had no
`options.limit` and an empty `query` whenever it had no `query`; and an error
naming the missing field is raised exactly when the parsed object lacks a
truthy `action`, or lacks both a truthy `collection` and a truthy `table`
(the provider-specific equivalent), `lacks` being the source's presence
check (absent or JS-falsy). -/
theorem parseJSONResponse_defaults_and_missing_fields
    (raw : String) (pl : Int) (fs : List (String × JVal))
    (hparse : jsonParse (repairText raw) = Except.ok (JVal.obj fs)) :
    (∀ a, parseJSONResponse raw pl "mongodb" = Except.ok a →
        (getField2 (JVal.obj fs) "options" "limit" = none →
            getField2 a "options" "limit" = some (JVal.num pl))
        ∧ (jlookup "query" fs = none → getField a "query" = some (JVal.obj [])))
    ∧ ((∃ e, parseJSONResponse raw pl "mongodb" = Except.error e
          ∧ (e = wrapParseError "Missing 'action' field in response"
             ∨ e = wrapParseError "Missing 'collection' field in response"))
        ↔ (optTruthy (jlookup "action" fs) = false
           ∨ (optTruthy (jlookup "collection" fs) = false
              ∧ optTruthy (jlookup "table" fs) = false))) := by
  have hpr : parseJSONResponse raw pl "mongodb" = normalizeParsed (JVal.obj fs) pl "mongodb" := by
    rw [parseJSONResponse, hparse]
  constructor
  · intro a hok
    rw [hpr] at hok
    have hm := normalizeParsed_ok_mongo fs pl a hok
    have hshape := normalizeMongo_ok_shape fs pl a hm
    constructor
    · intro hnone
      rw [hshape.2, getField2_none_opts fs hnone]
      rfl
    · intro hqnone
      rw [hshape.1, hqnone]
      rfl
  · rw [hpr, normalizeParsed_mongo_eq]
    by_cases ha : (!(optTruthy (jlookup "action" fs))) = true
    · rw [if_pos ha]
      have ha0 : optTruthy (jlookup "action" fs) = false := by
        revert ha; cases optTruthy (jlookup "action" fs) <;> simp
      constructor
      · intro _; exact Or.inl ha0
      · intro _; exact ⟨_, rfl, Or.inl rfl⟩
    · rw [if_neg ha]
      have ha1 : optTruthy (jlookup "action" fs) = true := by
        revert ha; cases optTruthy (jlookup "action" fs) <;> simp
      by_cases hc : (!(optTruthy (jlookup "collection" fs))
          && !(optTruthy (jlookup "collection" fs))
          && !(optTruthy (jlookup "table" fs))) = true
      · rw [if_pos hc]
        simp only [Bool.and_eq_true, Bool.not_eq_true'] at hc
        constructor
        · intro _; exact Or.inr ⟨hc.1.1, hc.2⟩
        · intro _; exact ⟨_, rfl, Or.inr rfl⟩
      · rw [if_neg hc]
        have hrhs : ¬(optTruthy (jlookup "action" fs) = false
            ∨ (optTruthy (jlookup "collection" fs) = false
               ∧ optTruthy (jlookup "table" fs) = false)) := by
          rintro (h1 | ⟨h2, h3⟩)
          · rw [h1] at ha1; cases ha1
          · apply hc; simp [h2, h3]
        rcases hm : normalizeMongo (.obj fs) pl with e' | j
        · have he' := normalizeMongo_error_msg fs pl e' hm
          subst he'
          constructor
          · rintro ⟨e, heq, hor⟩
            cases heq
            rcases hor with h1 | h1
            · exact absurd h1 (by decide)
            · exact absurd h1 (by decide)
          · intro hr; exact absurd hr hrhs
        · constructor
          · rintro ⟨e, heq, hor⟩; cases heq
          · intro hr; exact absurd hr hrhs

/-- Witness for C5 at the concrete clean reply, `previewLimit = 50`. -/
theorem parseJSONResponse_defaults_and_missing_fields_witness :
    getField2 (JVal.obj [("action", JVal.str "find"), ("collection", JVal.str "users"),
        ("query", JVal.obj []), ("options", JVal.obj [("limit", JVal.num 50)])])
      "options" "limit" = some (JVal.num 50) :=
  ((parseJSONResponse_defaults_and_missing_fields cleanRaw 50
      [("action", JVal.str "find"), ("collection", JVal.str "users"), ("query", JVal.obj [])]
      (by rfl)).1
    (JVal.obj [("action", JVal.str "find"), ("collection", JVal.str "users"),
        ("query", JVal.obj []), ("options", JVal.obj [("limit", JVal.num 50)])])
    (by rfl)).1 (by rfl)

/-- Claim C10: `parseJSONResponse` conflates an explicit falsy
`options.limit` (`0`, `null`, `false`) with an absent one — each is replaced
by the preview limit — and for a nonzero preview limit no normalized action
ever carries `options.limit = 0`. -/
theorem parseJSONResponse_falsy_limit_defaulted :
    (∀ (raw : String) (pl : Int) (fs : List (String × JVal)) (a : JVal),
        jsonParse (repairText raw) = Except.ok (JVal.obj fs) →
        (getField2 (JVal.obj fs) "options" "limit" = some (JVal.num 0)
         ∨ getField2 (JVal.obj fs) "options" "limit" = some JVal.null
         ∨ getField2 (JVal.obj fs) "options" "limit" = some (JVal.bool false)) →
        parseJSONResponse raw pl "mongodb" = Except.ok a →
        getField2 a "options" "limit" = some (JVal.num pl))
    ∧ (∀ (raw : String) (pl : Int) (fs : List (String × JVal)) (a : JVal),
        jsonParse (repairText raw) = Except.ok (JVal.obj fs) → pl ≠ 0 →
        parseJSONResponse raw pl "mongodb" = Except.ok a →
        getField2 a "options" "limit" ≠ some (JVal.num 0)) := by
  constructor
  · intro raw pl fs a hparse hfalsy hok
    have hpr : parseJSONResponse raw pl "mongodb" = normalizeParsed (JVal.obj fs) pl "mongodb" := by
      rw [parseJSONResponse, hparse]
    rw [hpr] at hok
    have hm := normalizeParsed_ok_mongo fs pl a hok
    have hshape := normalizeMongo_ok_shape fs pl a hm
    rw [hshape.2]
    rcases hfalsy with hw | hw | hw
    all_goals rw [getField2_falsy_opts fs _ hw]
    all_goals rfl
  · intro raw pl fs a hparse hpl hok
    have hpr : parseJSONResponse raw pl "mongodb" = normalizeParsed (JVal.obj fs) pl "mongodb" := by
      rw [parseJSONResponse, hparse]
    rw [hpr] at hok
    have hm := normalizeParsed_ok_mongo fs pl a hok
    have hshape := normalizeMongo_ok_shape fs pl a hm
    rw [hshape.2]
    intro hzero
    have hz : jsOr (getField (jsOr (jlookup "options" fs) (JVal.obj [])) "limit") (JVal.num pl)
        = JVal.num 0 := by
      injection hzero
    exact jsOr_limit_ne_zero _ pl hpl hz

/-- Witness for C10 at a reply explicitly requesting `options.limit = 0`. -/
theorem parseJSONResponse_falsy_limit_defaulted_witness :
    getField2 (JVal.obj [("action", JVal.str "find"), ("collection", JVal.str "users"),
        ("options", JVal.obj [("limit", JVal.num 50)]), ("query", JVal.obj [])])
      "options" "limit" = some (JVal.num 50) :=
  (parseJSONResponse_falsy_limit_defaulted).1 zeroLimitRaw 50
    [("action", JVal.str "find"), ("collection", JVal.str "users"),
     ("options", JVal.obj [("limit", JVal.num 0)])]
    (JVal.obj [("action", JVal.str "find"), ("collection", JVal.str "users"),
        ("options", JVal.obj [("limit", JVal.num 50)]), ("query", JVal.obj [])])
    (by rfl) (Or.inl (by rfl)) (by rfl)

/-- A cache state with truthy data and timestamp inside the TTL is served
as-is by an unforced call, with no scan. -/
theorem getCached_hit {α : Type} (scan : String → α) (now : Int) (uri : String)
    (d : α) (t ttl : Int) (hne : t ≠ 0) (httl : now - t < ttl) :
    getCachedDBMetadata scan now uri false ⟨some d, some t, ttl⟩
      = ⟨d, ⟨some d, some t, ttl⟩, false⟩ := by
  unfold getCachedDBMetadata
  simp [hne, httl]

/-- Every call either scans and installs a fresh entry, or serves an
existing entry unchanged. -/
theorem getCached_post {α : Type} (scan : String → α) (now : Int) (uri : String)
    (force : Bool) (st : DBMetadataCache α) :
    (getCachedDBMetadata scan now uri force st
        = ⟨scan uri, ⟨some (scan uri), some now, st.ttl⟩, true⟩)
    ∨ (∃ d t, st.data = some d ∧ st.timestamp = some t ∧
        getCachedDBMetadata scan now uri force st = ⟨d, st, false⟩) := by
  rcases st with ⟨data, ts, ttl⟩
  rcases data with _ | d <;> rcases ts with _ | t
  · left; rfl
  · left; rfl
  · left; rfl
  · unfold getCachedDBMetadata
    by_cases hc : (!force && (t != 0) && decide (now - t < ttl)) = true
    · right
      exact ⟨d, t, rfl, rfl, by simp [hc]⟩
    · left
      simp [hc]

/-- Claim C6: a second unforced `getCachedDBMetadata` call within the TTL of
the first returns the identical snapshot with the cache state unchanged and
no second scan; and a forced call always scans and replaces the cache entry,
whatever the TTL state. -/
theorem getCachedDBMetadata_idempotent_within_ttl {α : Type} (scan : String → α)
    (uri : String) (now1 now2 : Int) (st0 : DBMetadataCache α) :
    (∀ t1, (getCachedDBMetadata scan now1 uri false st0).st.timestamp = some t1 →
        t1 ≠ 0 → now2 - t1 < (getCachedDBMetadata scan now1 uri false st0).st.ttl →
        getCachedDBMetadata scan now2 uri false (getCachedDBMetadata scan now1 uri false st0).st
          = ⟨(getCachedDBMetadata scan now1 uri false st0).result,
             (getCachedDBMetadata scan now1 uri false st0).st, false⟩)
    ∧ (∀ (st : DBMetadataCache α) (now : Int),
        getCachedDBMetadata scan now uri true st
          = ⟨scan uri, ⟨some (scan uri), some now, st.ttl⟩, true⟩) := by
  constructor
  · intro t1 hts hne httl
    rcases getCached_post scan now1 uri false st0 with hpost | ⟨d, t, hd, ht, hpost⟩
    · rw [hpost] at hts httl ⊢
      dsimp only at hts httl ⊢
      injection hts with hts
      subst hts
      exact getCached_hit scan now2 uri (scan uri) now1 st0.ttl hne httl
    · rcases st0 with ⟨sd, sts, sttl⟩
      dsimp only at hd ht
      subst hd; subst ht
      rw [hpost] at hts httl ⊢
      dsimp only at hts httl ⊢
      injection hts with hts
      subst hts
      exact getCached_hit scan now2 uri d t sttl hne httl
  · intro st now
    rcases st with ⟨data, ts, ttl⟩
    rcases data with _ | d <;> rcases ts with _ | t <;> simp [getCachedDBMetadata]

/-- Witness for C6: two calls at 1000 ms and 2000 ms against an initially
empty cache. -/
theorem getCachedDBMetadata_idempotent_within_ttl_witness :
    getCachedDBMetadata (fun _ : String => (7 : Nat)) 2000 "mongodb://u" false
        (getCachedDBMetadata (fun _ : String => (7 : Nat)) 1000 "mongodb://u" false
          (initialCache Nat)).st
      = ⟨7, (getCachedDBMetadata (fun _ : String => (7 : Nat)) 1000 "mongodb://u" false
          (initialCache Nat)).st, false⟩ :=
  (getCachedDBMetadata_idempotent_within_ttl (fun _ : String => (7 : Nat))
      "mongodb://u" 1000 2000 (initialCache Nat)).1
    1000 (by rfl) (by decide) (by decide)

/-- Counterexample to claim C7 as stated: with the identity scan recording
which URI was scanned, a call for `mongodb://hostB` within the TTL of a call
for `mongodb://hostA` is served `hostA`'s snapshot without any scan — the
cache is not keyed by connection identity. -/
theorem getCachedDBMetadata_cross_uri_counterexample :
    (getCachedDBMetadata (fun u : String => u) 2000 "mongodb://hostB" false
        (getCachedDBMetadata (fun u : String => u) 1000 "mongodb://hostA" false
          (initialCache String)).st).result = "mongodb://hostA"
    ∧ (getCachedDBMetadata (fun u : String => u) 2000 "mongodb://hostB" false
        (getCachedDBMetadata (fun u : String => u) 1000 "mongodb://hostA" false
          (initialCache String)).st).result ≠ "mongodb://hostB"
    ∧ (getCachedDBMetadata (fun u : String => u) 2000 "mongodb://hostB" false
        (getCachedDBMetadata (fun u : String => u) 1000 "mongodb://hostA" false
          (initialCache String)).st).didScan = false :=
  ⟨rfl, by decide, rfl⟩

/-- Claim C7 (amended): the metadata cache is a single process-wide entry
with no connection key; any unforced call within the TTL is served the
cached snapshot regardless of its connection descriptor, including one
produced by scanning a different descriptor. -/
theorem getCachedDBMetadata_single_entry_cache {α : Type} (scan : String → α)
    (uriA uriB : String) (now1 now2 : Int) (h1 : now1 ≠ 0)
    (h2 : now2 - now1 < 5 * 60 * 1000) :
    getCachedDBMetadata scan now2 uriB false
        (getCachedDBMetadata scan now1 uriA false (initialCache α)).st
      = ⟨scan uriA, (getCachedDBMetadata scan now1 uriA false (initialCache α)).st,
         false⟩ := by
  have hfirst : getCachedDBMetadata scan now1 uriA false (initialCache α)
      = ⟨scan uriA, ⟨some (scan uriA), some now1, 5 * 60 * 1000⟩, true⟩ := rfl
  rw [hfirst]
  exact getCached_hit scan now2 uriB (scan uriA) now1 (5 * 60 * 1000) h1 h2

/-- Witness for the amended C7 at two distinct concrete URIs. -/
theorem getCachedDBMetadata_single_entry_cache_witness :
    getCachedDBMetadata (fun u : String => u) 2000 "mongodb://hostB" false
        (getCachedDBMetadata (fun u : String => u) 1000 "mongodb://hostA" false
          (initialCache String)).st
      = ⟨"mongodb://hostA",
         (getCachedDBMetadata (fun u : String => u) 1000 "mongodb://hostA" false
          (initialCache String)).st, false⟩ :=
  getCachedDBMetadata_single_entry_cache (fun u : String => u)
    "mongodb://hostA" "mongodb://hostB" 1000 2000 (by decide) (by decide)

theorem parseUserInstruction_rate_limit_retry
    (g : Nat → ProviderReply) (oai : ProviderReply) (t m1 m2 : String)
    (h1 : g 1 = .failure m1) (hr1 : isRateLimitMsg m1 = true)
    (h2 : g 2 = .failure m2) (hr2 : isRateLimitMsg m2 = true)
    (h3 : g 3 = .success t) :
    parseUserInstruction g oai =
      { outcome := .ok t, geminiAttempts := 3, geminiWaits := [2000, 4000],
        openaiCalled := false }
    ∧ (∀ (g2 : Nat → ProviderReply) (m : String),
        g2 1 = .failure m → isRateLimitMsg m = false →
        (parseUserInstruction g2 oai).geminiAttempts = 1
        ∧ (parseUserInstruction g2 oai).geminiWaits = []
        ∧ (parseUserInstruction g2 oai).openaiCalled = true) := by
  constructor
  · have hg : parseWithGemini g = { outcome := .ok t, attempts := 3, waits := [2000, 4000] } := by
      rw [parseWithGemini]
      rw [show (3 : Nat) = 2 + 1 from rfl, geminiLoop, h1]
      simp only [hr1, if_true]
      rw [show (2 : Nat) = 1 + 1 from rfl, geminiLoop, h2]
      simp only [hr2, if_true]
      rw [show (1 : Nat) = 0 + 1 from rfl, geminiLoop, h3]
      rfl
    simp [parseUserInstruction, hg]
  · intro g2 m hm hnr
    have hg2 : parseWithGemini g2 = { outcome := .error m, attempts := 1, waits := [] } := by
      rw [parseWithGemini]
      rw [show (3 : Nat) = 2 + 1 from rfl, geminiLoop, hm]
      simp only [hnr, Bool.false_eq_true, if_false]
    rcases oai with t' | e' <;> simp [parseUserInstruction, hg2]

/-- Witness for C8 with a concrete provider that rate-limits twice. -/
theorem parseUserInstruction_rate_limit_retry_witness :
    parseUserInstruction
        (fun n => if n = 1 then ProviderReply.failure "429 budget exhausted"
                  else if n = 2 then ProviderReply.failure "quota exceeded"
                  else ProviderReply.success "done")
        (ProviderReply.success "unused")
      = { outcome := Except.ok "done", geminiAttempts := 3,
          geminiWaits := [2000, 4000], openaiCalled := false } :=
  (parseUserInstruction_rate_limit_retry
      (fun n => if n = 1 then ProviderReply.failure "429 budget exhausted"
                else if n = 2 then ProviderReply.failure "quota exceeded"
                else ProviderReply.success "done")
      (ProviderReply.success "unused")
      "done" "429 budget exhausted" "quota exceeded"
      rfl (by decide) rfl (by decide) rfl).1

/-- `Set.add` puts the key in the set. -/
theorem mem_insertUnique_self (k : String) (l : List String) : k ∈ insertUnique k l := by
  rw [insertUnique]
  by_cases h : k ∈ l
  · rw [if_pos h]; exact h
  · rw [if_neg h]; simp

/-- `Set.add` keeps existing members. -/
theorem mem_insertUnique_of_mem (k x : String) (l : List String) (h : x ∈ l) :
    x ∈ insertUnique k l := by
  rw [insertUnique]
  by_cases hk : k ∈ l
  · rw [if_pos hk]; exact h
  · rw [if_neg hk]; simp [h]

/-- `Set.add` introduces nothing but the added key. -/
theorem mem_insertUnique_elim (k x : String) (l : List String)
    (h : x ∈ insertUnique k l) : x = k ∨ x ∈ l := by
  rw [insertUnique] at h
  by_cases hk : k ∈ l
  · rw [if_pos hk] at h; exact Or.inr h
  · rw [if_neg hk] at h
    rcases List.mem_append.mp h with h1 | h1
    · exact Or.inr h1
    · simp at h1; exact Or.inl h1

/-- One entry iteration extends the field set by exactly the entry's key. -/
theorem scanEntry_fieldSet (st : SchemaAccum) (kv : String × JVal) :
    (scanEntry st kv).fieldSet = insertUnique kv.1 st.fieldSet := by
  simp only [scanEntry]
  split <;> rfl

/-- One entry iteration adds at most the entry's key to `sampleValues`. -/
theorem scanEntry_sampleKeys (st : SchemaAccum) (kv : String × JVal) :
    ∀ e ∈ (scanEntry st kv).sampleValues, e.1 = kv.1 ∨ e ∈ st.sampleValues := by
  simp only [scanEntry]
  split
  · intro e he
    exact mem_setField _ _ _ e he
  · intro e he
    exact Or.inr he

/-- Scanning a document never removes fields. -/
theorem scanDoc_fieldSet_mono (doc : List (String × JVal)) :
    ∀ (st : SchemaAccum) (x : String), x ∈ st.fieldSet → x ∈ (scanDoc st doc).fieldSet := by
  induction doc with
  | nil => intro st x h; exact h
  | cons kv rest ih =>
    intro st x h
    simp only [scanDoc, List.foldl_cons]
    apply ih
    rw [scanEntry_fieldSet]
    exact mem_insertUnique_of_mem _ _ _ h

/-- Scanning a document records every key of that document. -/
theorem scanDoc_fieldSet_adds (doc : List (String × JVal)) :
    ∀ (st : SchemaAccum) (kv : String × JVal), kv ∈ doc →
      kv.1 ∈ (scanDoc st doc).fieldSet := by
  induction doc with
  | nil => intro st kv h; cases h
  | cons a rest ih =>
    intro st kv h
    simp only [scanDoc, List.foldl_cons]
    rcases List.mem_cons.mp h with rfl | h1
    · apply scanDoc_fieldSet_mono rest (scanEntry st kv) kv.1
      rw [scanEntry_fieldSet]
      exact mem_insertUnique_self _ _
    · exact ih _ _ h1

/-- Every field after scanning a document was already present or is a key of
the document. -/
theorem scanDoc_fieldSet_src (doc : List (String × JVal)) :
    ∀ (st : SchemaAccum) (x : String), x ∈ (scanDoc st doc).fieldSet →
      x ∈ st.fieldSet ∨ ∃ kv ∈ doc, kv.1 = x := by
  induction doc with
  | nil => intro st x h; exact Or.inl h
  | cons a rest ih =>
    intro st x h
    simp only [scanDoc, List.foldl_cons] at h
    rcases ih _ _ h with h1 | ⟨kv, hkv, rfl⟩
    · rw [scanEntry_fieldSet] at h1
      rcases mem_insertUnique_elim _ _ _ h1 with rfl | h2
      · exact Or.inr ⟨a, List.mem_cons_self _ _, rfl⟩
      · exact Or.inl h2
    · exact Or.inr ⟨kv, List.mem_cons_of_mem _ hkv, rfl⟩

/-- Scanning a document preserves `sampleValues` keys being fields. -/
theorem scanDoc_sampleKeys (doc : List (String × JVal)) :
    ∀ (st : SchemaAccum), (∀ e ∈ st.sampleValues, e.1 ∈ st.fieldSet) →
      ∀ e ∈ (scanDoc st doc).sampleValues, e.1 ∈ (scanDoc st doc).fieldSet := by
  induction doc with
  | nil => intro st h; exact h
  | cons a rest ih =>
    intro st h
    simp only [scanDoc, List.foldl_cons]
    apply ih
    intro e he
    rcases scanEntry_sampleKeys st a e he with h1 | h1
    · rw [scanEntry_fieldSet, h1]
      exact mem_insertUnique_self _ _
    · rw [scanEntry_fieldSet]
      exact mem_insertUnique_of_mem _ _ _ (h e h1)

/-- The document fold never removes fields. -/
theorem foldDocs_mono (docs : List (List (String × JVal))) :
    ∀ (st : SchemaAccum) (x : String), x ∈ st.fieldSet →
      x ∈ (docs.foldl scanDoc st).fieldSet := by
  induction docs with
  | nil => intro st x h; exact h
  | cons d rest ih =>
    intro st x h
    simp only [List.foldl_cons]
    exact ih _ _ (scanDoc_fieldSet_mono d st x h)

/-- The document fold records every key of every document. -/
theorem foldDocs_adds (docs : List (List (String × JVal))) :
    ∀ (st : SchemaAccum) (d : List (String × JVal)) (kv : String × JVal),
      d ∈ docs → kv ∈ d → kv.1 ∈ (docs.foldl scanDoc st).fieldSet := by
  induction docs with
  | nil => intro st d kv h; cases h
  | cons a rest ih =>
    intro st d kv h hkv
    simp only [List.foldl_cons]
    rcases List.mem_cons.mp h with rfl | h1
    · exact foldDocs_mono rest _ _ (scanDoc_fieldSet_adds d st kv hkv)
    · exact ih _ _ _ h1 hkv

/-- Every field after the fold was present initially or comes from some
document. -/
theorem foldDocs_src (docs : List (List (String × JVal))) :
    ∀ (st : SchemaAccum) (x : String), x ∈ (docs.foldl scanDoc st).fieldSet →
      x ∈ st.fieldSet ∨ ∃ d ∈ docs, ∃ kv ∈ d, kv.1 = x := by
  induction docs with
  | nil => intro st x h; exact Or.inl h
  | cons a rest ih =>
    intro st x h
    simp only [List.foldl_cons] at h
    rcases ih _ _ h with h1 | ⟨d, hd, kv, hkv, rfl⟩
    · rcases scanDoc_fieldSet_src a st x h1 with h2 | ⟨kv, hkv, rfl⟩
      · exact Or.inl h2
      · exact Or.inr ⟨a, List.mem_cons_self _ _, kv, hkv, rfl⟩
    · exact Or.inr ⟨d, List.mem_cons_of_mem _ hd, kv, hkv, rfl⟩

/-- The document fold preserves `sampleValues` keys being fields. -/
theorem foldDocs_samples (docs : List (List (String × JVal))) :
    ∀ (st : SchemaAccum), (∀ e ∈ st.sampleValues, e.1 ∈ st.fieldSet) →
      ∀ e ∈ (docs.foldl scanDoc st).sampleValues,
        e.1 ∈ (docs.foldl scanDoc st).fieldSet := by
  induction docs with
  | nil => intro st h; exact h
  | cons a rest ih =>
    intro st h
    simp only [List.foldl_cons]
    exact ih _ (scanDoc_sampleKeys a st h)

/-- Claim C9: `inferSchema` returns a schema whose `fields` is exactly the
union of the keys of all sampled documents, and every key of `fieldTypes`
and of `sampleValues` is a member of `fields`. -/
theorem inferSchema_fields_union (documents : List (List (String × JVal))) :
    (∀ d ∈ documents, ∀ kv ∈ d, kv.1 ∈ (inferSchema documents).fields)
    ∧ (∀ f ∈ (inferSchema documents).fields, ∃ d ∈ documents, ∃ kv ∈ d, kv.1 = f)
    ∧ (∀ e ∈ (inferSchema documents).fieldTypes, e.1 ∈ (inferSchema documents).fields)
    ∧ (∀ e ∈ (inferSchema documents).sampleValues, e.1 ∈ (inferSchema documents).fields) := by
  rcases documents with _ | ⟨d0, rest⟩
  · simp [inferSchema]
  · have hif : inferSchema (d0 :: rest) =
        { fields := ((d0 :: rest).foldl scanDoc ⟨[], [], []⟩).fieldSet
          fieldTypes := ((d0 :: rest).foldl scanDoc ⟨[], [], []⟩).fieldSet.map
            (fun f => (f, (tlookup f ((d0 :: rest).foldl scanDoc ⟨[], [], []⟩).fieldTypes).getD []))
          sampleValues := ((d0 :: rest).foldl scanDoc ⟨[], [], []⟩).sampleValues } := rfl
    rw [hif]
    refine ⟨?_, ?_, ?_, ?_⟩
    · intro d hd kv hkv
      exact foldDocs_adds (d0 :: rest) ⟨[], [], []⟩ d kv hd hkv
    · intro f hf
      rcases foldDocs_src (d0 :: rest) ⟨[], [], []⟩ f hf with h1 | h1
      · cases h1
      · exact h1
    · intro e he
      rw [List.mem_map] at he
      obtain ⟨f, hf, rfl⟩ := he
      exact hf
    · intro e he
      exact foldDocs_samples (d0 :: rest) ⟨[], [], []⟩ (by intro e h; cases h) e he

/-- Witness for C9 on two concrete one-field documents. -/
theorem inferSchema_fields_union_witness :
    "b" ∈ (inferSchema [[("a", JVal.num 1)], [("b", JVal.str "x")]]).fields :=
  (inferSchema_fields_union [[("a", JVal.num 1)], [("b", JVal.str "x")]]).1
    [("b", JVal.str "x")]
    (List.mem_cons_of_mem _ (List.mem_cons_self _ _))
    ("b", JVal.str "x")
    (List.mem_cons_self _ _)
